import Mathlib

/-!
Verification of the calculator core in `src/app.js`.

The JavaScript source is shallowly embedded here:

* numeric values (JS `number`) are modelled by exact rationals `ℚ`; every
  arithmetic step appearing in the claims is exact in IEEE doubles as well,
  and the one claim that is specifically about binary floating point
  (`roundSmart` on `0.1+0.2`) is treated separately;
* strings are Lean `String`s manipulated through their character lists
  (the source only ever slices whole ASCII characters);
* the module-level mutable state (`expressionTokens`, `currentInput`,
  `lastResult`, `isError`) becomes the structure `CalcState`, and every
  event handler becomes a function `CalcState → CalcState`;
* `Number(s)` / `parseFloat(s)` are modelled on the decimal-literal fragment
  the calculator produces (optional sign, digits, at most one dot); other
  notations (hex, exponent, `Infinity`) yield `none`, which models `NaN`.
-/

namespace Calc

attribute [local semireducible] Rat.add Rat.mul Rat.sub Rat.inv

/-- Length of a string in characters (JS `s.length` for the ASCII strings used here). -/
def strLen (t : String) : ℕ := t.data.length

/-- JS `s.slice(0, -1)` : drop the final character. -/
def strDropLast (t : String) : String := String.mk t.data.dropLast

/-- JS `s.slice(1)` : drop the first character. -/
def strTail (t : String) : String := String.mk t.data.tail

/-- JS `s.startsWith("-")`. -/
def startsWithDash (t : String) : Bool :=
  match t.data with
  | c :: _ => c = '-'
  | [] => false

/-- Numeric value of a digit list read left to right. -/
def digitsVal (l : List Char) : ℕ :=
  l.foldl (fun acc c => 10 * acc + (c.toNat - 48)) 0

/-- Whole-string decimal literal: `ddd`, `ddd.`, `.ddd`, `ddd.ddd` (at least one digit). -/
def decCore (l : List Char) : Option ℚ :=
  let intPart := l.takeWhile Char.isDigit
  let rest := l.dropWhile Char.isDigit
  match rest with
  | [] => if intPart = [] then none else some ((digitsVal intPart : ℚ))
  | '.' :: frac =>
    if frac.all Char.isDigit ∧ (intPart ≠ [] ∨ frac ≠ []) then
      some ((digitsVal intPart : ℚ) + (digitsVal frac : ℚ) / (10 : ℚ) ^ frac.length)
    else none
  | _ => none

/-- JS `Number(t)` on the token grammar of this program: the empty string is `0`,
an optional sign followed by a decimal literal is its value, anything else is
`NaN` (modelled as `none`). -/
def numberOf (s : String) : Option ℚ :=
  match s.data with
  | [] => some 0
  | '-' :: rest => (decCore rest).map Neg.neg
  | '+' :: rest => decCore rest
  | l => decCore l

/-- Longest-prefix decimal parse used by JS `parseFloat`: leading digits, then an
optional dot with further digits; `NaN` (`none`) when no digit is found. -/
def parseFloatCore (l : List Char) : Option ℚ :=
  let intPart := l.takeWhile Char.isDigit
  let rest := l.dropWhile Char.isDigit
  let frac := match rest with
    | '.' :: r => r.takeWhile Char.isDigit
    | _ => []
  if intPart = [] ∧ frac = [] then none
  else some ((digitsVal intPart : ℚ) + (digitsVal frac : ℚ) / (10 : ℚ) ^ frac.length)

/-- JS `parseFloat(s)` on the strings this program produces (exponent notation is
not modelled; the calculator tokens never carry it). -/
def parseFloatQ (s : String) : Option ℚ :=
  match s.data with
  | '-' :: rest => (parseFloatCore rest).map Neg.neg
  | '+' :: rest => parseFloatCore rest
  | l => parseFloatCore l

/-! `roundSmart` (`src/app.js` lines 20-31): `toPrecision(12)`, re-read the value,
`toFixed(12)`, then strip `/\.?0+$/`. -/

/-- Fuelled base-10 logarithm (the fuel `n` always suffices for input `n`). -/
def natLog10Aux : ℕ → ℕ → ℕ
  | 0, _ => 0
  | f + 1, n => if n < 10 then 0 else natLog10Aux f (n / 10) + 1

/-- Base-10 logarithm, `natLog10 n = ⌊log₁₀ n⌋` for `n ≥ 1`. -/
def natLog10 (n : ℕ) : ℕ := natLog10Aux n n

/-- Integer power of ten as a rational, for possibly negative exponents. -/
def tenPow (e : ℤ) : ℚ :=
  if 0 ≤ e then ((10 ^ e.toNat : ℕ) : ℚ) else 1 / ((10 ^ (-e).toNat : ℕ) : ℚ)

/-- ECMA rounding used by `toPrecision`/`toFixed`: nearest integer, ties to the
larger integer. -/
def jsRound (y : ℚ) : ℤ := (y + 1 / 2).num.fdiv ((y + 1 / 2).den : ℤ)

/-- Decimal exponent of a positive rational: the `e` with `10^e ≤ y < 10^(e+1)`. -/
def decExp (y : ℚ) : ℤ :=
  let e0 : ℤ := (natLog10 y.num.natAbs : ℤ) - (natLog10 y.den : ℤ)
  if tenPow e0 ≤ y then e0 else e0 - 1

/-- Value of `Number(n.toPrecision(12))`: `n` rounded to 12 significant decimal
digits (the sign is split off first, as in ECMA `toPrecision`). -/
def sig12 (x : ℚ) : ℚ :=
  if x = 0 then 0
  else
    let y := |x|
    let k : ℤ := decExp y - 11
    let v : ℚ := ((jsRound (y / tenPow k) : ℚ)) * tenPow k
    if x < 0 then -v else v

/-- Decimal digits of a natural number, most significant first. -/
def natDigitsRevAux : ℕ → ℕ → List Char
  | 0, _ => []
  | f + 1, n => if n = 0 then [] else Char.ofNat (48 + n % 10) :: natDigitsRevAux f (n / 10)

/-- Decimal digit string of a natural number. -/
def natDigits (n : ℕ) : List Char :=
  if n = 0 then ['0'] else (natDigitsRevAux n n).reverse

/-- Left-pad a digit list with zeros up to the given length. -/
def padLeftZeros (l : List Char) (len : ℕ) : List Char :=
  List.replicate (len - l.length) '0' ++ l

/-- Drop trailing `'0'` characters. -/
def dropTrailingZeros (l : List Char) : List Char :=
  (l.reverse.dropWhile (fun c => c == '0')).reverse

/-- Value of `num.toFixed(12)` followed by the trim `/\.?0+$/`, for
`|num| < 10^21` (the fixed-notation range of ECMA `toFixed`). -/
def toFixedTrim (num : ℚ) : String :=
  let sgn : List Char := if num < 0 then ['-'] else []
  let n : ℕ := (jsRound (|num| * ((10 ^ 12 : ℕ) : ℚ))).toNat
  let ip := n / 10 ^ 12
  let fp := n % 10 ^ 12
  let fracT := dropTrailingZeros (padLeftZeros (natDigits fp) 12)
  if fracT = [] then String.mk (sgn ++ natDigits ip)
  else String.mk (sgn ++ natDigits ip ++ ['.'] ++ fracT)

/-- JS `ToString` in exponential notation, taken by `toFixed` for `|num| ≥ 10^21`;
exact for the 12-significant-digit values `sig12` feeds into it. -/
def jsSci (num : ℚ) : String :=
  let sgn : List Char := if num < 0 then ['-'] else []
  let y := |num|
  let e := decExp y
  let m := (jsRound (y / tenPow (e - 11))).toNat
  let ds := dropTrailingZeros (padLeftZeros (natDigits m) 12)
  match ds with
  | [] => String.mk (sgn ++ ['0'])
  | d :: rest =>
    if rest = [] then String.mk (sgn ++ [d] ++ ['e', '+'] ++ natDigits e.toNat)
    else String.mk (sgn ++ [d] ++ ['.'] ++ rest ++ ['e', '+'] ++ natDigits e.toNat)

/-- Embeds `roundSmart` (`src/app.js` lines 20-31). The source's early return for a
non-finite re-read value cannot fire over `ℚ` and is omitted. -/
def roundSmart (x : ℚ) : String :=
  let num := sig12 x
  if |num| < ((10 ^ 21 : ℕ) : ℚ) then toFixedTrim num else jsSci num

/-! The session state and the event handlers (`src/app.js` lines 8-12, 41-211,
268-298). `updateDisplay` only paints the DOM and is not part of the state. -/

/-- The module-level mutable state of `src/app.js` (lines 8-12). -/
structure CalcState where
  expressionTokens : List String
  currentInput : String
  lastResult : Option ℚ
  isError : Bool
deriving DecidableEq, Repr

/-- Membership in the operator list `["+", "-", "*", "/"]`. -/
def isOperator (t : String) : Bool :=
  t == "+" || t == "-" || t == "*" || t == "/"

/-- Embeds `clearAll` (lines 41-47). -/
def clearAll (_s : CalcState) : CalcState :=
  { expressionTokens := [], currentInput := "", lastResult := none, isError := false }

/-- Embeds `clearEntry` (lines 49-53). -/
def clearEntry (s : CalcState) : CalcState :=
  if s.isError then s else { s with currentInput := "" }

/-- The regex test `/^\d|\./.test(last)` (line 61): first character a digit, or a
dot anywhere. -/
def looksLikeNumber (t : String) : Bool :=
  (match t.data with
   | c :: _ => c.isDigit
   | [] => false) || t.data.contains '.'

/-- Embeds `backspace` (lines 55-69). -/
def backspace (s : CalcState) : CalcState :=
  if s.isError then s
  else if strLen s.currentInput ≠ 0 then
    { s with currentInput := strDropLast s.currentInput }
  else
    match s.expressionTokens.getLast? with
    | none => s
    | some last =>
      if looksLikeNumber last then
        { s with currentInput := strDropLast last,
                 expressionTokens := s.expressionTokens.dropLast }
      else { s with expressionTokens := s.expressionTokens.dropLast }

/-- Embeds `appendDigit` (lines 71-80). -/
def appendDigit (d : String) (s : CalcState) : CalcState :=
  if s.isError then s
  else if s.currentInput = "0" ∧ d ≠ "." then { s with currentInput := d }
  else { s with currentInput := s.currentInput ++ d }

/-- Embeds `appendDot` (lines 82-88). -/
def appendDot (s : CalcState) : CalcState :=
  if s.isError then s
  else if ¬ s.currentInput.data.contains '.' then
    { s with currentInput := if s.currentInput ≠ "" then s.currentInput ++ "." else "0." }
  else s

/-- Embeds `negate` (lines 90-102). -/
def negate (s : CalcState) : CalcState :=
  if s.isError then s
  else if s.currentInput ≠ "" then
    if startsWithDash s.currentInput then { s with currentInput := strTail s.currentInput }
    else { s with currentInput := "-" ++ s.currentInput }
  else
    match s.lastResult with
    | some r => { s with lastResult := some (-r) }
    | none => s

/-- Embeds `commitCurrent` (lines 105-110). -/
def commitCurrent (s : CalcState) : CalcState :=
  if s.currentInput ≠ "" then
    { s with expressionTokens := s.expressionTokens ++ [s.currentInput], currentInput := "" }
  else s

/-- Embeds `applyPercent` (lines 151-211). -/
def applyPercent (s : CalcState) : CalcState :=
  if s.isError then s
  else if s.currentInput ≠ "" then
    match parseFloatQ s.currentInput with
    | none => s
    | some B =>
      let ctx : Option (ℚ × String) :=
        if 2 ≤ s.expressionTokens.length then
          let prevOp := (s.expressionTokens.getLast?).getD ""
          match parseFloatQ ((s.expressionTokens.dropLast.getLast?).getD "") with
          | some prevNum => if isOperator prevOp then some (prevNum, prevOp) else none
          | none => none
        else none
      let transformed : ℚ :=
        match ctx with
        | some (A, op) => if op = "+" ∨ op = "-" then A * (B / 100) else B / 100
        | none => B / 100
      { s with currentInput := roundSmart transformed }
  else
    match s.expressionTokens.getLast? with
    | none => s
    | some last =>
      if isOperator last then s
      else
        match parseFloatQ last with
        | none => s
        | some B =>
          let ctx : Option (ℚ × String) :=
            if 3 ≤ s.expressionTokens.length then
              let prevOp := (s.expressionTokens.dropLast.getLast?).getD ""
              match parseFloatQ ((s.expressionTokens.dropLast.dropLast.getLast?).getD "") with
              | some prevNum => if isOperator prevOp then some (prevNum, prevOp) else none
              | none => none
            else none
          let transformed : ℚ :=
            match ctx with
            | some (A, op) => if op = "+" ∨ op = "-" then A * (B / 100) else B / 100
            | none => B / 100
          { s with expressionTokens := s.expressionTokens.dropLast ++ [roundSmart transformed] }

/-- Embeds `pushOperator` (lines 113-145); `"%"` is routed to `applyPercent` as in the
source. -/
def pushOperator (op : String) (s : CalcState) : CalcState :=
  if s.isError then s
  else if op = "%" then applyPercent s
  else if s.expressionTokens = [] ∧ s.currentInput = "" then
    if op = "-" then { s with currentInput := "-" } else s
  else
    let s1 := commitCurrent s
    if isOperator ((s1.expressionTokens.getLast?).getD "") then
      { s1 with expressionTokens := s1.expressionTokens.dropLast ++ [op] }
    else { s1 with expressionTokens := s1.expressionTokens ++ [op] }

/-! The evaluator (`src/app.js` lines 216-266). -/

/-- Result record `{ ok, value?, error? }` of `evaluateTokens`. -/
inductive EvalResult where
  | ok (value : ℚ)
  | err (error : String)
deriving DecidableEq, Repr

/-- The precedence table (line 220); operators outside the table never reach a
comparison in the source, the default `0` is arbitrary. -/
def precedence (t : String) : ℕ :=
  if t = "+" then 1 else if t = "-" then 1
  else if t = "*" then 2 else if t = "/" then 2 else 0

/-- Embeds `applyOp` (lines 222-237): pop `b` then `a`, push `a op b`. The source's
finiteness test on `a` and `b` always passes over `ℚ` and is omitted. -/
def applyOp (op : String) (output : List ℚ) : Except String (List ℚ) :=
  match output with
  | b :: a :: rest =>
    if op = "+" then .ok ((a + b) :: rest)
    else if op = "-" then .ok ((a - b) :: rest)
    else if op = "*" then .ok ((a * b) :: rest)
    else if op = "/" then
      if b = 0 then .error "Division by zero" else .ok ((a / b) :: rest)
    else .error "Unknown operator"
  | _ => .error "Malformed expression"

/-- The inner `while` of lines 244-247: pop and apply stacked operators of
precedence at least that of the incoming `t`. -/
def popApply (t : String) : List ℚ → List String → Except String (List ℚ × List String)
  | output, [] => .ok (output, [])
  | output, o :: rest =>
    if precedence t ≤ precedence o then
      match applyOp o output with
      | .error e => .error e
      | .ok out2 => popApply t out2 rest
    else .ok (output, o :: rest)

/-- The scanning loop of lines 240-255. -/
def scanTokens : List String → List ℚ → List String → Except String (List ℚ × List String)
  | [], output, ops => .ok (output, ops)
  | t :: ts, output, ops =>
    if isOperator t then
      match popApply t output ops with
      | .error e => .error e
      | .ok (out2, ops2) => scanTokens ts out2 (t :: ops2)
    else
      match numberOf t with
      | none => .error "Invalid number"
      | some n => scanTokens ts (n :: output) ops

/-- The draining loop of lines 257-260. -/
def drainOps : List ℚ → List String → Except String (List ℚ)
  | output, [] => .ok output
  | output, o :: rest =>
    match applyOp o output with
    | .error e => .error e
    | .ok out2 => drainOps out2 rest

/-- Embeds `evaluateTokens` (lines 216-266). The final finiteness (overflow) test
always passes over `ℚ` and is omitted. -/
def evaluateTokens (tokens : List String) : EvalResult :=
  match scanTokens tokens [] [] with
  | .error e => .err e
  | .ok (output, ops) =>
    match drainOps output ops with
    | .error e => .err e
    | .ok [value] => .ok value
    | .ok _ => .err "Malformed expression"

/-- Embeds the trailing-operator removal inside `equals`
(lines 274-277). -/
def stripTrailingOperator (s : CalcState) : CalcState :=
  if isOperator ((s.expressionTokens.getLast?).getD "") then
    { s with expressionTokens := s.expressionTokens.dropLast }
  else s

/-- Embeds `equals` (lines 268-298). -/
def equals (s : CalcState) : CalcState :=
  if s.isError then s
  else
    let s2 := stripTrailingOperator (commitCurrent s)
    if s2.expressionTokens = [] then
      { s2 with lastResult := some (s2.lastResult.getD 0) }
    else
      match evaluateTokens s2.expressionTokens with
      | .err _ => { s2 with isError := true, lastResult := none }
      | .ok v => { s2 with lastResult := some v,
                           expressionTokens := [roundSmart v],
                           currentInput := "" }

/-- The cleared startup state (line 342 runs `clearAll()` at load). -/
def initState : CalcState :=
  { expressionTokens := [], currentInput := "", lastResult := none, isError := false }

/-! Specification-side evaluator for claim C1. `specGo` is modelled from the
spec's words: "a precedence-climbing reduction (`*`,`/` bind tighter than
`+`,`-`; operators of equal precedence associate left-to-right) producing a
single scalar". It scans the operator/operand pairs left to right keeping an
additive accumulator `sAcc` with a pending additive operator `aOp` and the
current multiplicative term `t`: `*`/`/` act on `t` at once (tight binding,
left associated), `+`/`-` fold the finished term into the sum (left
associated). -/

/-- Fold a finished term into the additive accumulator (`aOp` is `"+"` or `"-"`). -/
def specStepAdd (aOp : String) (sAcc t : ℚ) : ℚ :=
  if aOp = "+" then sAcc + t else sAcc - t

/-- Modelled from the spec: left-to-right reduction with `*`,`/` binding
tighter than `+`,`-`, failing on a zero divisor. -/
def specGo (sAcc : ℚ) (aOp : String) (t : ℚ) : List (String × ℚ) → Except String ℚ
  | [] => .ok (specStepAdd aOp sAcc t)
  | (o, b) :: rest =>
    if o = "*" then specGo sAcc aOp (t * b) rest
    else if o = "/" then
      if b = 0 then .error "Division by zero" else specGo sAcc aOp (t / b) rest
    else specGo (specStepAdd aOp sAcc t) o b rest

/-- Modelled from the spec: reference evaluation of a parsed token stream
`n₀ op₁ n₁ op₂ n₂ …`. -/
def specEval (n0 : ℚ) (ps : List (String × ℚ)) : Except String ℚ :=
  specGo 0 "+" n0 ps

/-- Well-formed alternation after the leading number: pairs of an operator
token and a number token (with its parsed value). -/
inductive PairsWF : List String → List (String × ℚ) → Prop where
  | nil : PairsWF [] []
  | cons (o b : String) (n : ℚ) (ts : List String) (ps : List (String × ℚ)) :
      isOperator o = true → isOperator b = false → numberOf b = some n →
      PairsWF ts ps → PairsWF (o :: b :: ts) ((o, n) :: ps)

/-- Scan the remaining tokens from intermediate stacks, then drain. -/
def runRest (ts : List String) (output : List ℚ) (ops : List String) :
    Except String (List ℚ) :=
  match scanTokens ts output ops with
  | .error e => .error e
  | .ok (out2, ops2) => drainOps out2 ops2

/-- Wrap a scalar result as a singleton stack. -/
def liftList (r : Except String ℚ) : Except String (List ℚ) :=
  match r with
  | .error e => .error e
  | .ok v => .ok [v]

/-- One multiplicative application (`m` is `"*"` or `"/"`), failing on a zero
divisor. -/
def mulApply (m : String) (t x : ℚ) : Except String ℚ :=
  if m = "*" then .ok (t * x)
  else if x = 0 then .error "Division by zero" else .ok (t / x)

/-- Spec-side continuation of a suspended multiplicative application. -/
def mulThen (m : String) (t x sAcc : ℚ) (aOp : String) (ps : List (String × ℚ)) :
    Except String ℚ :=
  match mulApply m t x with
  | .error e => .error e
  | .ok t2 => specGo sAcc aOp t2 ps

/-- The two stack shapes the scan loop inhabits below the working operands:
either nothing is suspended (sum accumulator `0` under a virtual `"+"`), or
exactly one additive context is suspended. -/
def CtxOK (R : List ℚ) (A : List String) (sAcc : ℚ) (aOp : String) : Prop :=
  (R = [] ∧ A = [] ∧ sAcc = 0 ∧ aOp = "+") ∨
  (R = [sAcc] ∧ A = [aOp] ∧ (aOp = "+" ∨ aOp = "-"))

theorem isOperator_cases {o : String} (h : isOperator o = true) :
    o = "+" ∨ o = "-" ∨ o = "*" ∨ o = "/" := by
  simp only [isOperator, Bool.or_eq_true, beq_iff_eq] at h
  tauto

theorem runRest_nil (output : List ℚ) (ops : List String) :
    runRest [] output ops = drainOps output ops := rfl

theorem runRest_num {t : String} {n : ℚ} (ts : List String) (output : List ℚ)
    (ops : List String) (hnum : isOperator t = false) (hparse : numberOf t = some n) :
    runRest (t :: ts) output ops = runRest ts (n :: output) ops := by
  simp [runRest, scanTokens, hnum, hparse]

theorem runRest_two {o b : String} {n : ℚ} (ts : List String)
    {output out2 : List ℚ} {ops ops2 : List String}
    (hop : isOperator o = true) (hnum : isOperator b = false)
    (hparse : numberOf b = some n) (hpop : popApply o output ops = .ok (out2, ops2)) :
    runRest (o :: b :: ts) output ops = runRest ts (n :: out2) (o :: ops2) := by
  simp [runRest, scanTokens, hop, hnum, hparse, hpop]

theorem runRest_op_err {o : String} {e : String} (ts : List String)
    {output : List ℚ} {ops : List String}
    (hop : isOperator o = true) (hpop : popApply o output ops = .error e) :
    runRest (o :: ts) output ops = .error e := by
  simp [runRest, scanTokens, hop, hpop]

theorem popApply_nil (t : String) (output : List ℚ) :
    popApply t output [] = .ok (output, []) := rfl

theorem popApply_stop {t m : String} (output : List ℚ) (A : List String)
    (h : ¬ precedence t ≤ precedence m) :
    popApply t output (m :: A) = .ok (output, m :: A) := by
  simp [popApply, h]

theorem popApply_step {t m : String} {output out2 : List ℚ} (A : List String)
    (h : precedence t ≤ precedence m) (ha : applyOp m output = .ok out2) :
    popApply t output (m :: A) = popApply t out2 A := by
  simp [popApply, h, ha]

theorem popApply_step_err {t m e : String} {output : List ℚ} (A : List String)
    (h : precedence t ≤ precedence m) (ha : applyOp m output = .error e) :
    popApply t output (m :: A) = .error e := by
  simp [popApply, h, ha]

theorem applyOp_star (t x : ℚ) (R : List ℚ) :
    applyOp "*" (x :: t :: R) = .ok ((t * x) :: R) := rfl

theorem applyOp_div_nz {x : ℚ} (t : ℚ) (R : List ℚ) (hx : ¬ x = 0) :
    applyOp "/" (x :: t :: R) = .ok ((t / x) :: R) := by
  simp [applyOp, hx]

theorem applyOp_div_z (t : ℚ) (R : List ℚ) :
    applyOp "/" ((0 : ℚ) :: t :: R) = .error "Division by zero" := rfl

theorem applyOp_addop {a : String} (ha : a = "+" ∨ a = "-") (t2 s : ℚ) (R : List ℚ) :
    applyOp a (t2 :: s :: R) = .ok (specStepAdd a s t2 :: R) := by
  rcases ha with h | h <;> subst h <;> rfl

theorem drain_absorb {m : String} {output out2 : List ℚ} (A : List String)
    (happ : applyOp m output = .ok out2) :
    drainOps output (m :: A) = drainOps out2 A := by
  simp [drainOps, happ]

theorem runRest_mul_absorb {o m : String} {output out2 : List ℚ}
    (ts : List String) (A : List String)
    (hop : isOperator o = true) (hprec : precedence o ≤ precedence m)
    (happ : applyOp m output = .ok out2) :
    runRest (o :: ts) output (m :: A) = runRest (o :: ts) out2 A := by
  simp [runRest, scanTokens, hop, popApply_step A hprec happ]

/-- Processing one well-formed operator/number pair from a valid scan
configuration matches one step of the reference evaluator. -/
theorem contStep (o b : String) (n : ℚ) (ts' : List String) (ps' : List (String × ℚ))
    (hop : isOperator o = true) (hnum : isOperator b = false)
    (hparse : numberOf b = some n)
    (ihAdd : ∀ (t : ℚ) (R : List ℚ) (A : List String) (sAcc : ℚ) (aOp : String),
      CtxOK R A sAcc aOp → runRest ts' (t :: R) A = liftList (specGo sAcc aOp t ps'))
    (ihMul : ∀ (x t : ℚ) (R : List ℚ) (A : List String) (sAcc : ℚ) (aOp m : String),
      CtxOK R A sAcc aOp → m = "*" ∨ m = "/" →
      runRest ts' (x :: t :: R) (m :: A) = liftList (mulThen m t x sAcc aOp ps'))
    (t2 : ℚ) (R : List ℚ) (A : List String) (sAcc : ℚ) (aOp : String)
    (hctx : CtxOK R A sAcc aOp) :
    runRest (o :: b :: ts') (t2 :: R) A = liftList (specGo sAcc aOp t2 ((o, n) :: ps')) := by
  rcases hctx with ⟨hR, hA, hs, ha⟩ | ⟨hR, hA, ha⟩
  · subst hR; subst hA; subst hs; subst ha
    rw [runRest_two ts' hop hnum hparse (popApply_nil o _)]
    rcases isOperator_cases hop with ho | ho | ho | ho <;> subst ho
    · rw [ihAdd n [t2] ["+"] t2 "+" (Or.inr ⟨rfl, rfl, Or.inl rfl⟩)]
      simp [specGo, specStepAdd]
    · rw [ihAdd n [t2] ["-"] t2 "-" (Or.inr ⟨rfl, rfl, Or.inr rfl⟩)]
      simp [specGo, specStepAdd]
    · rw [ihMul n t2 [] [] 0 "+" "*" (Or.inl ⟨rfl, rfl, rfl, rfl⟩) (Or.inl rfl)]
      simp [specGo, mulThen, mulApply]
    · rcases eq_or_ne n 0 with hn | hn
      · subst hn
        rw [ihMul 0 t2 [] [] 0 "+" "/" (Or.inl ⟨rfl, rfl, rfl, rfl⟩) (Or.inr rfl)]
        simp [specGo, mulThen, mulApply]
      · rw [ihMul n t2 [] [] 0 "+" "/" (Or.inl ⟨rfl, rfl, rfl, rfl⟩) (Or.inr rfl)]
        simp [specGo, mulThen, mulApply, hn]
  · subst hR; subst hA
    rcases isOperator_cases hop with ho | ho | ho | ho <;> subst ho
    · have hpop : popApply "+" (t2 :: [sAcc]) [aOp] = .ok ([specStepAdd aOp sAcc t2], []) := by
        rw [popApply_step [] (by rcases ha with h | h <;> subst h <;> decide)
          (applyOp_addop ha t2 sAcc [])]
        exact popApply_nil _ _
      rw [runRest_two ts' hop hnum hparse hpop]
      rw [ihAdd n [specStepAdd aOp sAcc t2] ["+"] (specStepAdd aOp sAcc t2) "+"
        (Or.inr ⟨rfl, rfl, Or.inl rfl⟩)]
      simp [specGo]
    · have hpop : popApply "-" (t2 :: [sAcc]) [aOp] = .ok ([specStepAdd aOp sAcc t2], []) := by
        rw [popApply_step [] (by rcases ha with h | h <;> subst h <;> decide)
          (applyOp_addop ha t2 sAcc [])]
        exact popApply_nil _ _
      rw [runRest_two ts' hop hnum hparse hpop]
      rw [ihAdd n [specStepAdd aOp sAcc t2] ["-"] (specStepAdd aOp sAcc t2) "-"
        (Or.inr ⟨rfl, rfl, Or.inr rfl⟩)]
      simp [specGo]
    · have hpop : popApply "*" (t2 :: [sAcc]) [aOp] = .ok (t2 :: [sAcc], [aOp]) :=
        popApply_stop _ _ (by rcases ha with h | h <;> subst h <;> decide)
      rw [runRest_two ts' hop hnum hparse hpop]
      rw [ihMul n t2 [sAcc] [aOp] sAcc aOp "*" (Or.inr ⟨rfl, rfl, ha⟩) (Or.inl rfl)]
      simp [specGo, mulThen, mulApply]
    · have hpop : popApply "/" (t2 :: [sAcc]) [aOp] = .ok (t2 :: [sAcc], [aOp]) :=
        popApply_stop _ _ (by rcases ha with h | h <;> subst h <;> decide)
      rw [runRest_two ts' hop hnum hparse hpop]
      rcases eq_or_ne n 0 with hn | hn
      · subst hn
        rw [ihMul 0 t2 [sAcc] [aOp] sAcc aOp "/" (Or.inr ⟨rfl, rfl, ha⟩) (Or.inr rfl)]
        simp [specGo, mulThen, mulApply]
      · rw [ihMul n t2 [sAcc] [aOp] sAcc aOp "/" (Or.inr ⟨rfl, rfl, ha⟩) (Or.inr rfl)]
        simp [specGo, mulThen, mulApply, hn]

/-- Simulation of the shunting-yard scan by the reference evaluator, for every
well-formed remainder and every valid intermediate configuration. -/
theorem evalKey {ts : List String} {ps : List (String × ℚ)} (hwf : PairsWF ts ps) :
    (∀ (t : ℚ) (R : List ℚ) (A : List String) (sAcc : ℚ) (aOp : String),
      CtxOK R A sAcc aOp → runRest ts (t :: R) A = liftList (specGo sAcc aOp t ps)) ∧
    (∀ (x t : ℚ) (R : List ℚ) (A : List String) (sAcc : ℚ) (aOp m : String),
      CtxOK R A sAcc aOp → m = "*" ∨ m = "/" →
      runRest ts (x :: t :: R) (m :: A) = liftList (mulThen m t x sAcc aOp ps)) := by
  induction hwf with
  | nil =>
    have addNil : ∀ (t : ℚ) (R : List ℚ) (A : List String) (sAcc : ℚ) (aOp : String),
        CtxOK R A sAcc aOp → runRest [] (t :: R) A = liftList (specGo sAcc aOp t []) := by
      intro t R A sAcc aOp hctx
      rcases hctx with ⟨hR, hA, hs, ha⟩ | ⟨hR, hA, ha⟩
      · subst hR; subst hA; subst hs; subst ha
        simp [runRest_nil, drainOps, liftList, specGo, specStepAdd]
      · subst hR; subst hA
        rcases ha with h | h <;> subst h <;>
          simp [runRest_nil, drainOps, applyOp, liftList, specGo, specStepAdd]
    refine ⟨addNil, ?_⟩
    intro x t R A sAcc aOp m hctx hm
    rcases hm with hm | hm <;> subst hm
    · rw [runRest_nil, drain_absorb A (applyOp_star t x R), ← runRest_nil,
        addNil (t * x) R A sAcc aOp hctx]
      simp [mulThen, mulApply]
    · rcases eq_or_ne x 0 with hx | hx
      · subst hx
        rw [runRest_nil]
        simp [drainOps, applyOp_div_z, mulThen, mulApply, liftList]
      · rw [runRest_nil, drain_absorb A (applyOp_div_nz t R hx), ← runRest_nil,
          addNil (t / x) R A sAcc aOp hctx]
        simp [mulThen, mulApply, hx]
  | cons o b n ts' ps' hop hnum hparse hwf' ih =>
    obtain ⟨ihAdd, ihMul⟩ := ih
    have hprec : ∀ m2, m2 = "*" ∨ m2 = "/" → precedence o ≤ precedence m2 := by
      intro m2 h2
      rcases isOperator_cases hop with ho | ho | ho | ho <;> rcases h2 with h2 | h2 <;>
        subst ho <;> subst h2 <;> decide
    refine ⟨fun t R A sAcc aOp hctx =>
      contStep o b n ts' ps' hop hnum hparse ihAdd ihMul t R A sAcc aOp hctx, ?_⟩
    intro x t R A sAcc aOp m hctx hm
    rcases hm with hm | hm <;> subst hm
    · rw [runRest_mul_absorb (b :: ts') A hop (hprec "*" (Or.inl rfl)) (applyOp_star t x R),
        contStep o b n ts' ps' hop hnum hparse ihAdd ihMul (t * x) R A sAcc aOp hctx]
      simp [mulThen, mulApply]
    · rcases eq_or_ne x 0 with hx | hx
      · subst hx
        rw [runRest_op_err (b :: ts') hop
          (popApply_step_err A (hprec "/" (Or.inr rfl)) (applyOp_div_z t R))]
        simp [mulThen, mulApply, liftList]
      · rw [runRest_mul_absorb (b :: ts') A hop (hprec "/" (Or.inr rfl)) (applyOp_div_nz t R hx),
          contStep o b n ts' ps' hop hnum hparse ihAdd ihMul (t / x) R A sAcc aOp hctx]
        simp [mulThen, mulApply, hx]

/-- Repackage the evaluator result record. -/
def resOf : Except String ℚ → EvalResult
  | .ok v => .ok v
  | .error e => .err e

/-- The final checks of `evaluateTokens` (lines 262-265) applied to the result
of scanning and draining. -/
def finishRes : Except String (List ℚ) → EvalResult
  | .error e => .err e
  | .ok [value] => .ok value
  | .ok _ => .err "Malformed expression"

theorem evaluateTokens_runRest (ts : List String) :
    evaluateTokens ts = finishRes (runRest ts [] []) := by
  unfold evaluateTokens runRest
  cases h : scanTokens ts [] [] with
  | error e => rfl
  | ok p =>
    obtain ⟨output, ops⟩ := p
    cases hd : drainOps output ops with
    | error e => rfl
    | ok l => rcases l with _ | ⟨v, _ | ⟨w, l⟩⟩ <;> rfl

theorem pairsWF_ops {ts : List String} {ps : List (String × ℚ)} (hwf : PairsWF ts ps) :
    ∀ p ∈ ps, isOperator p.1 = true := by
  induction hwf with
  | nil => intro p hp; simp at hp
  | cons o b n ts' ps' hop hnum hparse hwf' ih =>
    intro p hp
    rcases List.mem_cons.mp hp with h | h
    · subst h; exact hop
    · exact ih p h

theorem pairsWF_last {ts : List String} {ps : List (String × ℚ)} (hwf : PairsWF ts ps) :
    ∀ h : String, isOperator h = false → isOperator (((h :: ts).getLast?).getD "") = false := by
  induction hwf with
  | nil => intro h hh; simpa using hh
  | cons o b n ts' ps' hop hnum hparse hwf' ih =>
    intro h hh
    simpa [List.getLast?_cons_cons] using ih b hnum

/-- The reference evaluator fails with the division-by-zero tag whenever the
stream contains a division by a zero-valued operand. -/
theorem specGo_divzero :
    ∀ (ps : List (String × ℚ)) (sAcc : ℚ) (aOp : String) (t : ℚ),
      (∀ p ∈ ps, isOperator p.1 = true) → ("/", (0 : ℚ)) ∈ ps →
      specGo sAcc aOp t ps = .error "Division by zero" := by
  intro ps
  induction ps with
  | nil => intro sAcc aOp t _ hmem; simp at hmem
  | cons p rest ih =>
    intro sAcc aOp t hops hmem
    obtain ⟨o, b⟩ := p
    have hop : isOperator o = true := hops (o, b) (List.mem_cons_self _ _)
    have hrest : ∀ q ∈ rest, isOperator q.1 = true :=
      fun q hq => hops q (List.mem_cons_of_mem _ hq)
    rcases isOperator_cases hop with ho | ho | ho | ho <;> subst ho
    · have hmem' : ("/", (0 : ℚ)) ∈ rest := by
        rcases List.mem_cons.mp hmem with h | h
        · simp at h
        · exact h
      simp [specGo]
      exact ih _ _ _ hrest hmem'
    · have hmem' : ("/", (0 : ℚ)) ∈ rest := by
        rcases List.mem_cons.mp hmem with h | h
        · simp at h
        · exact h
      simp [specGo]
      exact ih _ _ _ hrest hmem'
    · have hmem' : ("/", (0 : ℚ)) ∈ rest := by
        rcases List.mem_cons.mp hmem with h | h
        · simp at h
        · exact h
      simp [specGo]
      exact ih _ _ _ hrest hmem'
    · rcases eq_or_ne b 0 with hb | hb
      · subst hb; simp [specGo]
      · have hmem' : ("/", (0 : ℚ)) ∈ rest := by
          rcases List.mem_cons.mp hmem with h | h
          · exfalso
            apply hb
            injection h with h1 h2
            exact h2.symm
          · exact h
        simp [specGo, hb]
        exact ih _ _ _ hrest hmem'

/-- C1: on every well-formed committed token stream (a number token followed by
alternating operator/number pairs), `evaluateTokens` agrees with the reference
evaluation `specEval`, in which `*` and `/` bind tighter than `+` and `-` and
operators of equal precedence associate left to right; in particular
`["2","+","3","*","4"]` evaluates to `14`. -/
theorem c1_evaluator_precedence :
    (∀ (n0s : String) (n0 : ℚ) (ts : List String) (ps : List (String × ℚ)),
      isOperator n0s = false → numberOf n0s = some n0 → PairsWF ts ps →
      evaluateTokens (n0s :: ts) = resOf (specEval n0 ps)) ∧
    evaluateTokens ["2", "+", "3", "*", "4"] = .ok 14 := by
  constructor
  · intro n0s n0 ts ps hn0 hp0 hwf
    rw [evaluateTokens_runRest, runRest_num ts [] [] hn0 hp0,
      (evalKey hwf).1 n0 [] [] 0 "+" (Or.inl ⟨rfl, rfl, rfl, rfl⟩)]
    cases hg : specGo 0 "+" n0 ps <;> simp [specEval, resOf, liftList, finishRes, hg]
  · decide

/-- Witness for C1 at the concrete stream `["2","+","3","*","4"]`. -/
theorem c1_evaluator_precedence_witness :
    evaluateTokens ["2", "+", "3", "*", "4"] = resOf (specEval 2 [("+", 3), ("*", 4)]) ∧
    resOf (specEval 2 [("+", 3), ("*", 4)]) = .ok 14 :=
  ⟨c1_evaluator_precedence.1 "2" 2 ["+", "3", "*", "4"] [("+", 3), ("*", 4)]
      (by decide) (by decide)
      (PairsWF.cons _ _ _ _ _ (by decide) (by decide) (by decide)
        (PairsWF.cons _ _ _ _ _ (by decide) (by decide) (by decide) PairsWF.nil)),
    by decide⟩

/-- C3 counterexample: the token sequence `["+","+","5","/","0"]` contains the
division `"/"` with divisor operand `"0"`, yet the evaluator reports the
malformed-expression failure, not division-by-zero. -/
theorem c3_division_by_zero_cex :
    evaluateTokens ["+", "+", "5", "/", "0"] = .err "Malformed expression" ∧
    evaluateTokens ["+", "+", "5", "/", "0"] ≠ .err "Division by zero" := by
  constructor <;> decide

/-- C3 (amended to well-formed streams): on every well-formed token stream
containing a division whose divisor operand is zero, the evaluator returns the
division-by-zero tagged failure, and `equals` on a non-error session holding
such a committed stream enters the error state with `lastResult` cleared; in
particular for `["6","/","0"]`. -/
theorem c3_division_by_zero :
    (∀ (n0s : String) (n0 : ℚ) (ts : List String) (ps : List (String × ℚ)),
      isOperator n0s = false → numberOf n0s = some n0 → PairsWF ts ps →
      ("/", (0 : ℚ)) ∈ ps →
      evaluateTokens (n0s :: ts) = .err "Division by zero" ∧
      ∀ s : CalcState, s.isError = false → s.currentInput = "" →
        s.expressionTokens = n0s :: ts →
        equals s = { s with isError := true, lastResult := none }) ∧
    evaluateTokens ["6", "/", "0"] = .err "Division by zero" ∧
    equals ⟨["6", "/", "0"], "", none, false⟩ = ⟨["6", "/", "0"], "", none, true⟩ := by
  refine ⟨?_, by decide, by decide⟩
  intro n0s n0 ts ps hn0 hp0 hwf hmem
  have heval : evaluateTokens (n0s :: ts) = .err "Division by zero" := by
    rw [evaluateTokens_runRest, runRest_num ts [] [] hn0 hp0,
      (evalKey hwf).1 n0 [] [] 0 "+" (Or.inl ⟨rfl, rfl, rfl, rfl⟩),
      specGo_divzero ps 0 "+" n0 (pairsWF_ops hwf) hmem]
    rfl
  refine ⟨heval, ?_⟩
  intro s hserr hcur htok
  have hcc : commitCurrent s = s := by simp [commitCurrent, hcur]
  have hlast : isOperator ((s.expressionTokens.getLast?).getD "") = false := by
    rw [htok]; exact pairsWF_last hwf n0s hn0
  have hstrip : stripTrailingOperator s = s := by simp [stripTrailingOperator, hlast]
  have hne : s.expressionTokens ≠ [] := by rw [htok]; exact List.cons_ne_nil _ _
  simp [equals, hserr, hcc, hstrip, hne, htok, heval]

/-- Witness for C3 at the concrete stream `["6","/","0"]` and the session
holding it. -/
theorem c3_division_by_zero_witness :
    evaluateTokens ["6", "/", "0"] = .err "Division by zero" ∧
    equals ⟨["6", "/", "0"], "", none, false⟩ = ⟨["6", "/", "0"], "", none, true⟩ := by
  have h := (c3_division_by_zero.1 "6" 6 ["/", "0"] [("/", 0)]
    (by decide) (by decide)
    (PairsWF.cons _ _ _ _ _ (by decide) (by decide) (by decide) PairsWF.nil)
    (List.mem_singleton.mpr rfl))
  exact ⟨h.1, by
    have h2 := h.2 ⟨["6", "/", "0"], "", none, false⟩ rfl rfl rfl
    simpa using h2⟩

/-- C4: while the error flag is set, each of appendDigit, appendDot, toggle
sign, pushOperator (any operator, `"%"` included), percent, equals, clearEntry
and backspace leaves the session state unchanged, and clear-all is the one
operation that leaves the error state, resetting to the cleared state. -/
theorem c4_error_state_noop :
    ∀ s : CalcState, s.isError = true →
      (∀ d : String, appendDigit d s = s) ∧ appendDot s = s ∧ negate s = s ∧
      (∀ op : String, pushOperator op s = s) ∧ applyPercent s = s ∧ equals s = s ∧
      clearEntry s = s ∧ backspace s = s ∧
      clearAll s = initState ∧ (clearAll s).isError = false := by
  intro s hs
  exact ⟨fun d => by simp [appendDigit, hs], by simp [appendDot, hs], by simp [negate, hs],
    fun op => by simp [pushOperator, applyPercent, hs], by simp [applyPercent, hs],
    by simp [equals, hs], by simp [clearEntry, hs], by simp [backspace, hs], rfl, rfl⟩

/-- Witness for C4 at a concrete error state. -/
theorem c4_error_state_noop_witness :
    (⟨["6", "/", "0"], "", none, true⟩ : CalcState).isError = true ∧
    pushOperator "+" ⟨["6", "/", "0"], "", none, true⟩ = ⟨["6", "/", "0"], "", none, true⟩ ∧
    backspace ⟨["6", "/", "0"], "", none, true⟩ = ⟨["6", "/", "0"], "", none, true⟩ :=
  ⟨rfl,
    (c4_error_state_noop ⟨["6", "/", "0"], "", none, true⟩ rfl).2.2.2.1 "+",
    (c4_error_state_noop ⟨["6", "/", "0"], "", none, true⟩ rfl).2.2.2.2.2.2.2.1⟩

/-- C5 is violated by the code: the event sequence 7, +, 5, sign-toggle,
backspace, * leaves the committed sequence `["7","+","*"]`, whose last two
tokens are both operators (the pending lone `"-"` is committed as a token and
then overwritten, leaving the `"+"` before it exposed). -/
theorem c5_consecutive_operators_bug :
    (pushOperator "*" (backspace (negate (appendDigit "5"
        (pushOperator "+" (appendDigit "7" initState)))))).expressionTokens =
      ["7", "+", "*"] ∧
    isOperator "+" = true ∧ isOperator "*" = true := by
  exact ⟨by decide, rfl, rfl⟩

theorem getLast?_app2 (pre : List String) (a b : String) :
    (pre ++ [a, b]).getLast? = some b := by
  rw [show pre ++ [a, b] = (pre ++ [a]) ++ [b] by simp]
  exact List.getLast?_concat _

theorem dropLast_app2 (pre : List String) (a b : String) :
    (pre ++ [a, b]).dropLast = pre ++ [a] := by
  rw [show pre ++ [a, b] = (pre ++ [a]) ++ [b] by simp]
  exact List.dropLast_concat

theorem getLast?_app3 (pre : List String) (a b c : String) :
    (pre ++ [a, b, c]).getLast? = some c := by
  rw [show pre ++ [a, b, c] = (pre ++ [a, b]) ++ [c] by simp]
  exact List.getLast?_concat _

theorem dropLast_app3 (pre : List String) (a b c : String) :
    (pre ++ [a, b, c]).dropLast = pre ++ [a, b] := by
  rw [show pre ++ [a, b, c] = (pre ++ [a, b]) ++ [c] by simp]
  exact List.dropLast_concat

/-- C2: the percent transform. With a non-empty pending buffer holding `B`: if
the committed sequence ends with a parseable number `A` followed by `"+"` or
`"-"`, pending is rewritten in place to the formatted `A * (B / 100)`; if it
ends with `A` and `"*"` or `"/"`, or holds at most one token (no governing
context), pending becomes the formatted `B / 100`. With an empty pending
buffer the same transform is applied to the last committed number token in
place. In particular `["200","+"]` with pending `"10"` gives pending `"20"`,
and pending `"50"` alone gives `"0.5"`. -/
theorem c2_percent_contextual :
    (∀ (s : CalcState) (pre : List String) (As op : String) (A B : ℚ),
      s.isError = false → s.currentInput ≠ "" → parseFloatQ s.currentInput = some B →
      s.expressionTokens = pre ++ [As, op] → parseFloatQ As = some A →
      (op = "+" ∨ op = "-") →
      applyPercent s = { s with currentInput := roundSmart (A * (B / 100)) }) ∧
    (∀ (s : CalcState) (pre : List String) (As op : String) (A B : ℚ),
      s.isError = false → s.currentInput ≠ "" → parseFloatQ s.currentInput = some B →
      s.expressionTokens = pre ++ [As, op] → parseFloatQ As = some A →
      (op = "*" ∨ op = "/") →
      applyPercent s = { s with currentInput := roundSmart (B / 100) }) ∧
    (∀ (s : CalcState) (B : ℚ),
      s.isError = false → s.currentInput ≠ "" → parseFloatQ s.currentInput = some B →
      s.expressionTokens.length ≤ 1 →
      applyPercent s = { s with currentInput := roundSmart (B / 100) }) ∧
    (∀ (s : CalcState) (pre : List String) (As op Bs : String) (A B : ℚ),
      s.isError = false → s.currentInput = "" →
      s.expressionTokens = pre ++ [As, op, Bs] →
      isOperator Bs = false → parseFloatQ Bs = some B → parseFloatQ As = some A →
      (op = "+" ∨ op = "-") →
      applyPercent s = { s with
        expressionTokens := pre ++ [As, op] ++ [roundSmart (A * (B / 100))] }) ∧
    (∀ (s : CalcState) (pre : List String) (As op Bs : String) (A B : ℚ),
      s.isError = false → s.currentInput = "" →
      s.expressionTokens = pre ++ [As, op, Bs] →
      isOperator Bs = false → parseFloatQ Bs = some B → parseFloatQ As = some A →
      (op = "*" ∨ op = "/") →
      applyPercent s = { s with
        expressionTokens := pre ++ [As, op] ++ [roundSmart (B / 100)] }) ∧
    (∀ (s : CalcState) (Bs : String) (B : ℚ),
      s.isError = false → s.currentInput = "" → s.expressionTokens = [Bs] →
      isOperator Bs = false → parseFloatQ Bs = some B →
      applyPercent s = { s with expressionTokens := [roundSmart (B / 100)] }) ∧
    applyPercent ⟨["200", "+"], "10", none, false⟩ = ⟨["200", "+"], "20", none, false⟩ ∧
    applyPercent ⟨[], "50", none, false⟩ = ⟨[], "0.5", none, false⟩ := by
  refine ⟨?_, ?_, ?_, ?_, ?_, ?_, by decide, by decide⟩
  · intro s pre As op A B hserr hcur hB htok hA hop
    have h2 : 2 ≤ s.expressionTokens.length := by rw [htok]; simp
    have hisop : isOperator op = true := by rcases hop with h | h <;> subst h <;> rfl
    simp [applyPercent, hserr, hcur, hB, h2, htok, getLast?_app2, dropLast_app2,
      List.getLast?_concat, hA, hisop, hop]
  · intro s pre As op A B hserr hcur hB htok hA hop
    have h2 : 2 ≤ s.expressionTokens.length := by rw [htok]; simp
    rcases hop with h | h <;> subst h <;>
      simp [applyPercent, show isOperator "*" = true from rfl,
        show isOperator "/" = true from rfl, hserr, hcur, hB, h2, htok,
        getLast?_app2, dropLast_app2, List.getLast?_concat, hA]
  · intro s B hserr hcur hB hlen
    have h2 : ¬ 2 ≤ s.expressionTokens.length := by omega
    simp [applyPercent, hserr, hcur, hB, h2]
  · intro s pre As op Bs A B hserr hcur htok hBs hB hA hop
    have h3 : 3 ≤ s.expressionTokens.length := by rw [htok]; simp
    have hisop : isOperator op = true := by rcases hop with h | h <;> subst h <;> rfl
    simp [applyPercent, hserr, hcur, htok, getLast?_app3, dropLast_app3,
      getLast?_app2, dropLast_app2, List.getLast?_concat, hBs, hB, hA, h3, hisop, hop]
  · intro s pre As op Bs A B hserr hcur htok hBs hB hA hop
    have h3 : 3 ≤ s.expressionTokens.length := by rw [htok]; simp
    rcases hop with h | h <;> subst h <;>
      simp [applyPercent, show isOperator "*" = true from rfl,
        show isOperator "/" = true from rfl, hserr, hcur, htok,
        getLast?_app3, dropLast_app3, getLast?_app2, dropLast_app2,
        List.getLast?_concat, hBs, hB, hA, h3]
  · intro s Bs B hserr hcur htok hBs hB
    have h3 : ¬ 3 ≤ s.expressionTokens.length := by rw [htok]; simp
    simp [applyPercent, hserr, hcur, htok, hBs, hB, h3]

/-- Witness for C2 at the two concrete percent applications of the spec. -/
theorem c2_percent_contextual_witness :
    applyPercent ⟨["200", "+"], "10", none, false⟩ =
      ⟨["200", "+"], roundSmart (200 * ((10 : ℚ) / 100)), none, false⟩ ∧
    roundSmart (200 * ((10 : ℚ) / 100)) = "20" := by
  constructor
  · exact c2_percent_contextual.1 ⟨["200", "+"], "10", none, false⟩ [] "200" "+" 200 10 rfl
      (by decide) (by decide) rfl (by decide) (Or.inl rfl)
  · decide

/-- C6 counterexample: `"-5"` is a committed number token (it parses to `-5`),
but on the state with empty pending and committed sequence `["-5"]`, backspace
drops it outright — the claim predicts pending `"-"` (the token with its last
character removed), yet pending stays `""`. -/
theorem c6_backspace_negative_cex :
    numberOf "-5" = some (-5) ∧ strDropLast "-5" = "-" ∧
    backspace ⟨["-5"], "", none, false⟩ = ⟨[], "", none, false⟩ ∧
    (⟨[], "", none, false⟩ : CalcState) ≠ ⟨[], "-", none, false⟩ := by
  exact ⟨by decide, by decide, by decide, by decide⟩

theorem backspace_concat (s : CalcState) (pre : List String) (t : String)
    (h1 : s.isError = false) (h2 : s.currentInput = "")
    (htok : s.expressionTokens = pre ++ [t]) :
    backspace s = if looksLikeNumber t then
        { s with currentInput := strDropLast t, expressionTokens := pre }
      else { s with expressionTokens := pre } := by
  have hlen : strLen s.currentInput = 0 := by rw [h2]; rfl
  by_cases hn : looksLikeNumber t <;>
    simp [backspace, h1, hlen, htok, List.getLast?_concat, List.dropLast_concat, hn]

/-- C6 (amended): with empty pending and a non-empty committed sequence,
backspace classifies the last committed token with the source's
looks-like-a-number test (first character a digit, or a dot anywhere): a token
passing the test moves into pending with its last character removed, and any
other token — operators, but also negative integer tokens such as `"-5"` —
is dropped outright. -/
theorem c6_backspace_last_token :
    ∀ (s : CalcState) (pre : List String) (t : String),
      s.isError = false → s.currentInput = "" → s.expressionTokens = pre ++ [t] →
      backspace s = if looksLikeNumber t then
          { s with currentInput := strDropLast t, expressionTokens := pre }
        else { s with expressionTokens := pre } :=
  fun s pre t h1 h2 htok => backspace_concat s pre t h1 h2 htok

/-- Witness for C6: a negative decimal token (passes the test via its dot) is
moved back into pending, a negative integer token is dropped. -/
theorem c6_backspace_last_token_witness :
    backspace ⟨["-5.5"], "", none, false⟩ = ⟨[], "-5.", none, false⟩ ∧
    backspace ⟨["-5"], "", none, false⟩ = ⟨[], "", none, false⟩ := by
  constructor
  · rw [c6_backspace_last_token ⟨["-5.5"], "", none, false⟩ [] "-5.5" rfl rfl rfl]
    decide
  · rw [c6_backspace_last_token ⟨["-5"], "", none, false⟩ [] "-5" rfl rfl rfl]
    decide

/-- C7: when the committed sequence — after committing pending and stripping a
trailing operator — is non-empty and evaluates to `v`, `equals` stores `v` as
`lastResult`, collapses the committed sequence to the single formatted result
token, and clears pending; consequently the chain 5, =, +, 3, = yields 8. -/
theorem c7_equals_collapses :
    (∀ (s : CalcState) (v : ℚ),
      s.isError = false →
      (stripTrailingOperator (commitCurrent s)).expressionTokens ≠ [] →
      evaluateTokens (stripTrailingOperator (commitCurrent s)).expressionTokens = .ok v →
      equals s = { stripTrailingOperator (commitCurrent s) with
        lastResult := some v, expressionTokens := [roundSmart v], currentInput := "" }) ∧
    equals (appendDigit "3" (pushOperator "+" (equals (appendDigit "5" initState)))) =
      ⟨["8"], "", some 8, false⟩ := by
  constructor
  · intro s v hserr hne heval
    simp [equals, hserr, hne, heval]
  · decide

/-- Witness for C7 at the state reached mid-chain: pending 3 over `5 +`. -/
theorem c7_equals_collapses_witness :
    equals ⟨["5", "+"], "3", some 5, false⟩ = ⟨["8"], "", some 8, false⟩ := by
  rw [c7_equals_collapses.1 ⟨["5", "+"], "3", some 5, false⟩ 8 rfl (by decide) (by decide)]
  decide

/-- C8 counterexample: from pending `"3"` with `lastResult` 5 set, one
backspace reaches the all-empty state; that state is a fixpoint of backspace
and is not the cleared state, because `lastResult` is preserved rather than
reset. -/
theorem c8_backspace_cex :
    backspace ⟨[], "3", some 5, false⟩ = ⟨[], "", some 5, false⟩ ∧
    backspace ⟨[], "", some 5, false⟩ = ⟨[], "", some 5, false⟩ ∧
    (⟨[], "", some 5, false⟩ : CalcState) ≠ initState := by
  exact ⟨by decide, by decide, by decide⟩

/-- Termination measure for backspace: characters pending plus, per committed
token, its characters and one for the token itself. -/
def bsMeasure (s : CalcState) : ℕ :=
  s.currentInput.data.length + (s.expressionTokens.map (fun t => t.data.length + 1)).sum

theorem str_eq_empty_of_data_nil : ∀ {t : String}, t.data = [] → t = "" := by
  intro t h
  cases t with
  | mk d =>
    have h2 : d = [] := h
    subst h2
    rfl

theorem strLen_ne_zero {t : String} (h : t ≠ "") : strLen t ≠ 0 := by
  intro h0
  exact h (str_eq_empty_of_data_nil (List.eq_nil_of_length_eq_zero h0))

theorem backspace_empty (s : CalcState) (h1 : s.isError = false)
    (h2 : s.currentInput = "") (h3 : s.expressionTokens = []) : backspace s = s := by
  have hlen : strLen s.currentInput = 0 := by rw [h2]; rfl
  simp [backspace, h1, hlen, h3]

theorem strDropLast_data (t : String) : (strDropLast t).data = t.data.dropLast := rfl

theorem backspace_decrease (s : CalcState) (h1 : s.isError = false)
    (h2 : s.currentInput ≠ "" ∨ s.expressionTokens ≠ []) :
    bsMeasure (backspace s) < bsMeasure s ∧ (backspace s).isError = false ∧
    (backspace s).lastResult = s.lastResult := by
  by_cases hcur : s.currentInput = ""
  · have hne : s.expressionTokens ≠ [] := by
      rcases h2 with h | h
      · exact absurd hcur h
      · exact h
    rcases List.eq_nil_or_concat s.expressionTokens with h0 | ⟨pre, t, htok⟩
    · exact absurd h0 hne
    rw [List.concat_eq_append] at htok
    rw [backspace_concat s pre t h1 hcur htok]
    by_cases hn : looksLikeNumber t
    · rw [if_pos hn]
      refine ⟨?_, h1, rfl⟩
      simp only [bsMeasure, strDropLast_data, htok, hcur, List.map_append, List.sum_append,
        List.map_cons, List.sum_cons, List.map_nil, List.sum_nil, List.length_dropLast]
      omega
    · rw [if_neg hn]
      refine ⟨?_, h1, rfl⟩
      simp only [bsMeasure, htok, hcur, List.map_append, List.sum_append,
        List.map_cons, List.sum_cons, List.map_nil, List.sum_nil]
      omega
  · have hlen : strLen s.currentInput ≠ 0 := strLen_ne_zero hcur
    have hbs : backspace s = { s with currentInput := strDropLast s.currentInput } := by
      simp [backspace, h1, hlen]
    rw [hbs]
    refine ⟨?_, h1, rfl⟩
    have hpos : s.currentInput.data.length ≠ 0 := hlen
    simp only [bsMeasure, strDropLast_data, List.length_dropLast]
    omega

theorem backspace_iter :
    ∀ (k : ℕ) (s : CalcState), s.isError = false → bsMeasure s ≤ k →
      (backspace^[k] s).expressionTokens = [] ∧ (backspace^[k] s).currentInput = "" ∧
      (backspace^[k] s).isError = false ∧ (backspace^[k] s).lastResult = s.lastResult := by
  intro k
  induction k with
  | zero =>
    intro s h1 hm
    have hm0 : bsMeasure s = 0 := Nat.le_zero.mp hm
    unfold bsMeasure at hm0
    have hc : s.currentInput.data.length = 0 := by omega
    have ht : (s.expressionTokens.map (fun t => t.data.length + 1)).sum = 0 := by omega
    have htok : s.expressionTokens = [] := by
      cases hE : s.expressionTokens with
      | nil => rfl
      | cons a l =>
        rw [hE] at ht
        simp only [List.map_cons, List.sum_cons] at ht
        exfalso
        omega
    have hcur : s.currentInput = "" :=
      str_eq_empty_of_data_nil (List.eq_nil_of_length_eq_zero hc)
    rw [Function.iterate_zero_apply]
    exact ⟨htok, hcur, h1, rfl⟩
  | succ k ih =>
    intro s h1 hm
    by_cases hempty : s.currentInput = "" ∧ s.expressionTokens = []
    · have hm0 : bsMeasure s = 0 := by
        unfold bsMeasure
        rw [hempty.1, hempty.2]
        rfl
      rw [Function.iterate_succ_apply, backspace_empty s h1 hempty.1 hempty.2]
      exact ih s h1 (by omega)
    · have h2 : s.currentInput ≠ "" ∨ s.expressionTokens ≠ [] := by tauto
      obtain ⟨hdec, herr, hlr⟩ := backspace_decrease s h1 h2
      rw [Function.iterate_succ_apply]
      obtain ⟨r1, r2, r3, r4⟩ := ih (backspace s) herr (by omega)
      exact ⟨r1, r2, r3, r4.trans hlr⟩

/-- C8 (amended): from every non-error state, finitely many backspaces reach a
state with empty pending and empty committed tokens that is a fixpoint of
backspace and still non-error; `lastResult` is preserved along the way, so the
reached state equals the cleared state only when `lastResult` was already
`none`. -/
theorem c8_backspace_terminates :
    ∀ s : CalcState, s.isError = false →
      ∃ n : ℕ, (backspace^[n] s).expressionTokens = [] ∧
        (backspace^[n] s).currentInput = "" ∧ (backspace^[n] s).isError = false ∧
        (backspace^[n] s).lastResult = s.lastResult ∧
        backspace (backspace^[n] s) = backspace^[n] s := by
  intro s h1
  obtain ⟨ht, hc, he, hl⟩ := backspace_iter (bsMeasure s) s h1 le_rfl
  exact ⟨bsMeasure s, ht, hc, he, hl, backspace_empty _ he hc ht⟩

/-- Witness for C8 at a concrete non-error state. -/
theorem c8_backspace_terminates_witness :
    ∃ n : ℕ, (backspace^[n] (⟨["5", "+"], "12", some 3, false⟩ : CalcState)).expressionTokens = [] ∧
      (backspace^[n] (⟨["5", "+"], "12", some 3, false⟩ : CalcState)).currentInput = "" ∧
      (backspace^[n] (⟨["5", "+"], "12", some 3, false⟩ : CalcState)).isError = false ∧
      (backspace^[n] (⟨["5", "+"], "12", some 3, false⟩ : CalcState)).lastResult =
        (⟨["5", "+"], "12", some 3, false⟩ : CalcState).lastResult ∧
      backspace (backspace^[n] (⟨["5", "+"], "12", some 3, false⟩ : CalcState)) =
        backspace^[n] (⟨["5", "+"], "12", some 3, false⟩ : CalcState) :=
  c8_backspace_terminates ⟨["5", "+"], "12", some 3, false⟩ rfl

end Calc
